import Mathlib

/-!
Verification of the product-service event pipeline.

This file gives a shallow embedding, in Lean 4, of the five core components
of the Go repository `product-service`: the bounded event queue
(`pkg/queue/event_queue.go`), the circuit breaker
(`pkg/circuitbreaker`), the retry executor (`pkg/retry/retry.go`),
the batch processor (`pkg/queue`, BatchProcessor), and the worker pool's
per-event processing path (`internal/services`).  Pure Go functions become
Lean functions; methods on mutable structs become state-passing functions
returning the updated struct; Go `int` becomes `Int`; `time.Time` /
`time.Duration` become `Int` timestamps and durations (nanoseconds);
`float64` quantities (prices, backoff delays, multipliers) are modelled in
exact rational arithmetic (`ℚ`); a Go error return becomes an explicit
result constructor.
-/

namespace ProductService

/-- Model of `models.ProductEvent` (internal/models/product.go):
`{ ProductID string; Price float64; Stock int }`. -/
structure ProductEvent where
  productID : String
  price : ℚ
  stock : Int
deriving DecidableEq, Repr

/-- Model of `models.Product` (internal/models/product.go):
`{ ID string; Price float64; Stock int }`. -/
structure Product where
  id : String
  price : ℚ
  stock : Int
deriving DecidableEq, Repr

/-! ## Bounded event queue (`pkg/queue/event_queue.go`)

`InMemoryEventQueue` wraps a buffered Go channel
`events chan models.ProductEvent` of capacity `bufferSize`.  We model the
channel as the list of buffered elements plus its capacity and a closed
flag.  In this sequential model there are never concurrent receivers
parked on the channel, so a send succeeds exactly when the buffer has
free space. -/

structure InMemoryEventQueue where
  capacity : Nat
  buffer : List ProductEvent
  closed : Bool
deriving DecidableEq, Repr

/-- `NewInMemoryEventQueue(bufferSize)`: `make(chan models.ProductEvent, bufferSize)`. -/
def NewInMemoryEventQueue (bufferSize : Nat) : InMemoryEventQueue :=
  { capacity := bufferSize, buffer := [], closed := false }

/-- Outcome of `Enqueue`.  `ok` is a nil error; `queueFull` is the
`"queue is full"` error of the `default` branch; `queueClosed` is the
package's `ErrQueueClosed` (never produced by this implementation);
`panicked` is a Go run-time panic. -/
inductive EnqueueResult
  | ok
  | queueFull
  | queueClosed
  | panicked
deriving DecidableEq, Repr

/-- `Enqueue` (event_queue.go lines 29-36):
```
select {
case q.events <- event:
    return nil
default:
    return fmt.Errorf("queue is full")
}
```
Per the Go specification, a send on a closed channel can always proceed
and does so by panicking; in a `select` the closed-send case is therefore
ready and is chosen over `default`.  So on a closed queue `Enqueue`
panics.  On an open queue the send is ready iff buffer space remains
(no concurrent receiver exists in this model), otherwise the `default`
branch returns the queue-full error. -/
def InMemoryEventQueue.Enqueue (q : InMemoryEventQueue) (event : ProductEvent) :
    EnqueueResult × InMemoryEventQueue :=
  if q.closed then
    (.panicked, q)
  else if q.buffer.length < q.capacity then
    (.ok, { q with buffer := q.buffer ++ [event] })
  else
    (.queueFull, q)

/-- Outcome of `Dequeue`: `event, ok := <-q.events`.  A receive on a
non-empty channel yields the oldest element with `ok = true`; on a closed
and drained channel it yields the zero value with `ok = false`; on an
open empty channel it blocks. -/
inductive DequeueResult
  | got (e : ProductEvent)
  | closedEmpty
  | blocks
deriving DecidableEq, Repr

/-- `Dequeue` (event_queue.go lines 39-42). -/
def InMemoryEventQueue.Dequeue (q : InMemoryEventQueue) :
    DequeueResult × InMemoryEventQueue :=
  match q.buffer with
  | e :: rest => (.got e, { q with buffer := rest })
  | [] => if q.closed then (.closedEmpty, q) else (.blocks, q)

/-- `Close` (event_queue.go lines 45-47): `close(q.events)`. -/
def InMemoryEventQueue.Close (q : InMemoryEventQueue) : InMemoryEventQueue :=
  { q with closed := true }

/-- Sequentially enqueue a list of events, collecting each call's result. -/
def enqueueAll (q : InMemoryEventQueue) : List ProductEvent →
    List EnqueueResult × InMemoryEventQueue
  | [] => ([], q)
  | e :: rest =>
    let (r, q') := q.Enqueue e
    let (rs, q'') := enqueueAll q' rest
    (r :: rs, q'')

/-! ### Queue lemmas -/

theorem enqueueAll_open_fits (es : List ProductEvent) :
    ∀ (q : InMemoryEventQueue), q.closed = false →
      q.buffer.length + es.length ≤ q.capacity →
      enqueueAll q es =
        (List.replicate es.length .ok,
         { q with buffer := q.buffer ++ es }) := by
  induction es with
  | nil => intro q _ _; simp [enqueueAll]
  | cons e rest ih =>
    intro q hopen hcap
    have hlt : q.buffer.length < q.capacity := by
      simp only [List.length_cons] at hcap; omega
    have h1 : q.Enqueue e = (.ok, { q with buffer := q.buffer ++ [e] }) := by
      simp [InMemoryEventQueue.Enqueue, hopen, hlt]
    have h2 := ih { q with buffer := q.buffer ++ [e] } (by simp [hopen])
      (by simp only [List.length_append, List.length_cons, List.length_nil]
          simp only [List.length_cons] at hcap; omega)
    simp only [enqueueAll, h1, h2, List.length_cons, List.replicate_succ,
      List.append_assoc, List.singleton_append]

theorem enqueue_full_of_at_capacity (q : InMemoryEventQueue) (e : ProductEvent)
    (hopen : q.closed = false) (hfull : q.capacity ≤ q.buffer.length) :
    q.Enqueue e = (.queueFull, q) := by
  simp [InMemoryEventQueue.Enqueue, hopen, Nat.not_lt.mpr hfull]

/-- C2: For every capacity C ≥ 0, on a freshly created open queue, exactly
C enqueues all succeed, the (C+1)-st enqueue fails with the queue-full
error, and a capacity-0 queue fails every enqueue (after any prior
enqueue attempts) with the queue-full error. -/
theorem c2_queue_capacity (C : Nat) (es : List ProductEvent) (e : ProductEvent)
    (hlen : es.length = C) :
    (enqueueAll (NewInMemoryEventQueue C) es).1 = List.replicate C .ok ∧
    ((enqueueAll (NewInMemoryEventQueue C) es).2.Enqueue e).1 = .queueFull ∧
    (∀ (es' : List ProductEvent) (e' : ProductEvent),
      ((enqueueAll (NewInMemoryEventQueue 0) es').2.Enqueue e').1 = .queueFull) := by
  have hrun := enqueueAll_open_fits es (NewInMemoryEventQueue C) rfl
    (by simp [NewInMemoryEventQueue, hlen])
  refine ⟨by rw [hrun, hlen], ?_, ?_⟩
  · rw [hrun]
    rw [enqueue_full_of_at_capacity _ e rfl (by simp [NewInMemoryEventQueue, hlen])]
  · intro es' e'
    have hrun0 := enqueueAll_open_fits es' (NewInMemoryEventQueue 0)
    by_cases h0 : es' = []
    · subst h0
      simp only [enqueueAll]
      rw [enqueue_full_of_at_capacity _ e' rfl (by simp [NewInMemoryEventQueue])]
    · -- on a zero-capacity open queue every enqueue fails and leaves the
      -- queue unchanged, so any sequence of enqueues leaves it fresh
      clear hrun hrun0
      have hinv : (enqueueAll (NewInMemoryEventQueue 0) es').2 =
          NewInMemoryEventQueue 0 := by
        clear h0
        induction es' with
        | nil => simp [enqueueAll]
        | cons x rest ih =>
          have hx : (NewInMemoryEventQueue 0).Enqueue x =
              (.queueFull, NewInMemoryEventQueue 0) :=
            enqueue_full_of_at_capacity _ x rfl (by simp [NewInMemoryEventQueue])
          simp only [enqueueAll, hx, ih]
      rw [hinv]
      rw [enqueue_full_of_at_capacity _ e' rfl (by simp [NewInMemoryEventQueue])]

/-- Witness for C2 at C = 2. -/
theorem c2_queue_capacity_witness :
    (enqueueAll (NewInMemoryEventQueue 2)
        [⟨"a", 1, 1⟩, ⟨"b", 2, 2⟩]).1 = List.replicate 2 .ok ∧
    ((enqueueAll (NewInMemoryEventQueue 2)
        [⟨"a", 1, 1⟩, ⟨"b", 2, 2⟩]).2.Enqueue ⟨"c", 3, 3⟩).1 = .queueFull ∧
    (∀ (es' : List ProductEvent) (e' : ProductEvent),
      ((enqueueAll (NewInMemoryEventQueue 0) es').2.Enqueue e').1 = .queueFull) :=
  c2_queue_capacity 2 [⟨"a", 1, 1⟩, ⟨"b", 2, 2⟩] ⟨"c", 3, 3⟩ rfl

/-- C5 (code bug): enqueueing on a closed queue panics — the send on the
closed channel is chosen by the `select` and causes a run-time panic —
instead of returning the `ErrQueueClosed` error the spec (and the
package's own test `TestInMemoryEventQueue_Close`) expects.  Evaluated
here at the test's own input: capacity 10, two buffered events, closed. -/
theorem c5_enqueue_after_close_panics :
    (((enqueueAll (NewInMemoryEventQueue 10)
        [⟨"1", 1, 1⟩, ⟨"2", 2, 2⟩]).2.Close.Enqueue ⟨"3", 3, 3⟩).1 = .panicked) ∧
    (((enqueueAll (NewInMemoryEventQueue 10)
        [⟨"1", 1, 1⟩, ⟨"2", 2, 2⟩]).2.Close.Enqueue ⟨"3", 3, 3⟩).1 ≠ .queueClosed) := by
  constructor <;> decide

/-! ## Circuit breaker (`pkg/circuitbreaker`)

`CircuitBreaker` holds `failureThreshold int`, `timeout time.Duration`,
`state State`, `failures int`, `lastFailureTime time.Time`, all mutated
under one mutex.  Timestamps and durations are `Int` nanoseconds;
`time.Since(x)` at instant `now` is `now - x`.  The wrapped operation is
a state transformer `op : α → α × Bool` (the Bool is `err != nil`),
modelling a Go closure over mutable state. -/

inductive CBState
  | Closed
  | Open
  | HalfOpen
deriving DecidableEq, Repr

structure CircuitBreaker where
  failureThreshold : Int
  timeout : Int
  state : CBState
  failures : Int
  lastFailureTime : Int
deriving DecidableEq, Repr

/-- `NewCircuitBreaker(failureThreshold, timeout)`: starts Closed with 0
failures; `lastFailureTime` starts at the zero time. -/
def NewCircuitBreaker (failureThreshold : Int) (timeout : Int) : CircuitBreaker :=
  { failureThreshold := failureThreshold, timeout := timeout,
    state := .Closed, failures := 0, lastFailureTime := 0 }

/-- `recordFailure`: `cb.failures++; cb.lastFailureTime = time.Now();
if cb.failures >= cb.failureThreshold { cb.state = Open }`. -/
def CircuitBreaker.recordFailure (cb : CircuitBreaker) (now : Int) : CircuitBreaker :=
  if cb.failures + 1 ≥ cb.failureThreshold then
    { cb with failures := cb.failures + 1, lastFailureTime := now, state := .Open }
  else
    { cb with failures := cb.failures + 1, lastFailureTime := now }

/-- `recordSuccess`: `if cb.state == HalfOpen { cb.state = Closed };
cb.failures = 0`. -/
def CircuitBreaker.recordSuccess (cb : CircuitBreaker) : CircuitBreaker :=
  if cb.state = .HalfOpen then { cb with state := .Closed, failures := 0 }
  else { cb with failures := 0 }

/-- Result of `Execute`: nil error, the `"circuit breaker is open"` error,
or the wrapped operation's own error. -/
inductive CBResult
  | ok
  | circuitOpen
  | opError
deriving DecidableEq, Repr

def CBResult.isErr : CBResult → Bool
  | .ok => false
  | _ => true

/-- `Execute` (circuit_breaker.go):
```
if cb.state == Open {
    if time.Since(cb.lastFailureTime) < cb.timeout {
        return errors.New("circuit breaker is open")
    }
    cb.state = HalfOpen
}
err := operation()
if err != nil { cb.recordFailure(); return err }
cb.recordSuccess(); return nil
```
Returns (result, updated breaker, updated operation state, whether the
operation was invoked). -/
def CircuitBreaker.Execute (cb : CircuitBreaker) (now : Int)
    (op : α → α × Bool) (s : α) : CBResult × CircuitBreaker × α × Bool :=
  if cb.state = .Open ∧ now - cb.lastFailureTime < cb.timeout then
    (.circuitOpen, cb, s, false)
  else
    let cb' := if cb.state = .Open then { cb with state := .HalfOpen } else cb
    let r := op s
    if r.2 then (.opError, cb'.recordFailure now, r.1, true)
    else (.ok, cb'.recordSuccess, r.1, true)

/-- `Reset`: `cb.state = Closed; cb.failures = 0`. -/
def CircuitBreaker.Reset (cb : CircuitBreaker) : CircuitBreaker :=
  { cb with state := .Closed, failures := 0 }

/-- An operation that always fails (`return errors.New(...)`). -/
def failingOp : Unit → Unit × Bool := fun u => (u, true)

/-- The breaker state after a sequence of failing `Execute` calls at the
given instants. -/
def execFailures (cb : CircuitBreaker) (ts : List Int) : CircuitBreaker :=
  ts.foldl (fun c t => (c.Execute t failingOp ()).2.1) cb

/-! ### Circuit breaker lemmas -/

theorem execute_fail_closed (cb : CircuitBreaker) (t : Int)
    (h : cb.state = .Closed) :
    (cb.Execute t failingOp ()).2.1 = cb.recordFailure t := by
  simp [CircuitBreaker.Execute, failingOp, h]

theorem execFailures_opens :
    ∀ (ts : List Int) (cb : CircuitBreaker), cb.state = .Closed →
      cb.failures + (ts.length : Int) = cb.failureThreshold →
      ts ≠ [] →
      (execFailures cb ts).state = .Open ∧
      (execFailures cb ts).failures = cb.failureThreshold := by
  intro ts
  induction ts with
  | nil => intro cb _ _ hne; exact absurd rfl hne
  | cons t rest ih =>
    intro cb hclosed hsum _
    have hstep : (cb.Execute t failingOp ()).2.1 = cb.recordFailure t :=
      execute_fail_closed cb t hclosed
    have hfold : execFailures cb (t :: rest) =
        execFailures ((cb.Execute t failingOp ()).2.1) rest := rfl
    rcases eq_or_ne rest [] with hrest | hrest
    · subst hrest
      have hthr : cb.failures + 1 ≥ cb.failureThreshold := by
        simp only [List.length_cons, List.length_nil] at hsum
        push_cast at hsum
        omega
      rw [hfold, hstep]
      simp only [execFailures, List.foldl_nil]
      unfold CircuitBreaker.recordFailure
      rw [if_pos hthr]
      refine ⟨rfl, ?_⟩
      simp only
      simp only [List.length_cons, List.length_nil] at hsum
      push_cast at hsum
      omega
    · have hlen : 1 ≤ (rest.length : Int) := by
        have := List.length_pos.mpr hrest
        exact_mod_cast this
      have hnthr : ¬ (cb.failures + 1 ≥ cb.failureThreshold) := by
        simp only [List.length_cons] at hsum
        push_cast at hsum
        omega
      rw [hfold, hstep]
      simp only [CircuitBreaker.recordFailure, if_neg hnthr]
      refine ih _ (by simpa using hclosed) ?_ hrest
      simp only [List.length_cons] at hsum
      push_cast at hsum ⊢
      omega

/-- C1: circuit breaker lifecycle.  (a) Starting from a fresh breaker
with threshold T ≥ 1, any T consecutive failing Execute calls leave the
breaker Open with failure count T.  (b) Any Execute on an Open breaker
before the timeout has elapsed since the last recorded failure returns
the circuit-open error without invoking the operation and without
changing any state.  (c) The first Execute on an Open breaker at or
after the timeout (its failure count having reached the threshold, as
(a) guarantees) invokes the operation exactly once as a Half-Open
probe: on success the breaker is Closed with 0 failures, on failure it
is Open again. -/
theorem c1_circuit_breaker_lifecycle (T d : Int) (hT : 1 ≤ T) :
    (∀ ts : List Int, (ts.length : Int) = T →
      (execFailures (NewCircuitBreaker T d) ts).state = .Open ∧
      (execFailures (NewCircuitBreaker T d) ts).failures = T) ∧
    (∀ (α : Type) (cb : CircuitBreaker) (t : Int) (op : α → α × Bool) (s : α),
      cb.state = .Open → t - cb.lastFailureTime < cb.timeout →
      cb.Execute t op s = (.circuitOpen, cb, s, false)) ∧
    (∀ (cb : CircuitBreaker) (t : Int) (fails : Bool) (n : Nat),
      cb.state = .Open → cb.timeout ≤ t - cb.lastFailureTime →
      cb.failureThreshold ≤ cb.failures →
      ((cb.Execute t (fun m : Nat => (m + 1, fails)) n).2.2.1 = n + 1 ∧
       (cb.Execute t (fun m : Nat => (m + 1, fails)) n).2.2.2 = true) ∧
      (fails = false →
        (cb.Execute t (fun m : Nat => (m + 1, fails)) n).1 = .ok ∧
        (cb.Execute t (fun m : Nat => (m + 1, fails)) n).2.1.state = .Closed ∧
        (cb.Execute t (fun m : Nat => (m + 1, fails)) n).2.1.failures = 0) ∧
      (fails = true →
        (cb.Execute t (fun m : Nat => (m + 1, fails)) n).2.1.state = .Open)) := by
  refine ⟨?_, ?_, ?_⟩
  · intro ts hlen
    have hne : ts ≠ [] := by
      intro h
      subst h
      simp at hlen
      omega
    have := execFailures_opens ts (NewCircuitBreaker T d)
      (by simp [NewCircuitBreaker]) (by simp [NewCircuitBreaker, hlen]) hne
    simpa [NewCircuitBreaker] using this
  · intro α cb t op s hopen ht
    simp [CircuitBreaker.Execute, hopen, ht]
  · intro cb t fails n hopen ht hthr
    have hnlt : ¬ (t - cb.lastFailureTime < cb.timeout) := not_lt.mpr ht
    cases fails with
    | false =>
      simp [CircuitBreaker.Execute, hopen, hnlt, CircuitBreaker.recordSuccess]
    | true =>
      have hthr' : cb.failures + 1 ≥ cb.failureThreshold := by omega
      simp [CircuitBreaker.Execute, hopen, hnlt, CircuitBreaker.recordFailure, hthr']

/-- Witness for C1 at T = 2, d = 100: the breaker after two failing calls
(at instants 0 and 1) is Open with 2 failures; its concrete value is
`{2, 100, Open, 2, 1}`; a call at instant 50 is rejected untouched; a
probe at instant 101 runs once and closes on success / reopens on
failure. -/
theorem c1_circuit_breaker_lifecycle_witness :
    ((execFailures (NewCircuitBreaker 2 100) [0, 1]).state = .Open ∧
     (execFailures (NewCircuitBreaker 2 100) [0, 1]).failures = 2) ∧
    (CircuitBreaker.Execute ⟨2, 100, .Open, 2, 1⟩ 50 failingOp () =
      (.circuitOpen, ⟨2, 100, .Open, 2, 1⟩, (), false)) ∧
    ((CircuitBreaker.Execute ⟨2, 100, .Open, 2, 1⟩ 101
        (fun m : Nat => (m + 1, false)) 0).2.2.1 = 1 ∧
     (CircuitBreaker.Execute ⟨2, 100, .Open, 2, 1⟩ 101
        (fun m : Nat => (m + 1, false)) 0).2.1.state = .Closed ∧
     (CircuitBreaker.Execute ⟨2, 100, .Open, 2, 1⟩ 101
        (fun m : Nat => (m + 1, false)) 0).2.1.failures = 0) ∧
    ((CircuitBreaker.Execute ⟨2, 100, .Open, 2, 1⟩ 101
        (fun m : Nat => (m + 1, true)) 0).2.2.1 = 1 ∧
     (CircuitBreaker.Execute ⟨2, 100, .Open, 2, 1⟩ 101
        (fun m : Nat => (m + 1, true)) 0).2.1.state = .Open) := by
  have h := c1_circuit_breaker_lifecycle 2 100 (by norm_num)
  refine ⟨h.1 [0, 1] (by norm_num), ?_, ?_, ?_⟩
  · exact h.2.1 Unit ⟨2, 100, .Open, 2, 1⟩ 50 failingOp () rfl (by norm_num)
  · have hc := h.2.2 ⟨2, 100, .Open, 2, 1⟩ 101 false 0 rfl (by norm_num) (by norm_num)
    exact ⟨hc.1.1, (hc.2.1 rfl).2.1, (hc.2.1 rfl).2.2⟩
  · have hc := h.2.2 ⟨2, 100, .Open, 2, 1⟩ 101 true 0 rfl (by norm_num) (by norm_num)
    exact ⟨hc.1.1, hc.2.2 rfl⟩

/-! ### Reachability and the Open-state invariant -/

/-- States reachable from a fresh breaker by `Execute` and `Reset` calls,
annotated with the instant of the last call.  An `Execute` step's breaker
evolution depends on the operation only through whether it failed, so a
`Bool`-valued operation loses no generality. -/
inductive CBReachable : CircuitBreaker → Int → Prop
  | init (T d t₀ : Int) : CBReachable (NewCircuitBreaker T d) t₀
  | exec {cb : CircuitBreaker} {t : Int} (t' : Int) (fails : Bool)
      (h : CBReachable cb t) :
      CBReachable ((cb.Execute t' (fun u : Unit => (u, fails)) ()).2.1) t'
  | reset {cb : CircuitBreaker} {t : Int} (t' : Int) (h : CBReachable cb t) :
      CBReachable cb.Reset t'

theorem recordSuccess_state_ne_open (cb : CircuitBreaker)
    (h : cb.state ≠ .Open) : cb.recordSuccess.state ≠ .Open := by
  unfold CircuitBreaker.recordSuccess
  split
  · simp
  · simpa using h

theorem recordFailure_cases (cb : CircuitBreaker) (t : Int) :
    (cb.failures + 1 ≥ cb.failureThreshold ∧
      cb.recordFailure t =
        { cb with failures := cb.failures + 1, lastFailureTime := t,
                  state := .Open }) ∨
    (¬ (cb.failures + 1 ≥ cb.failureThreshold) ∧
      cb.recordFailure t =
        { cb with failures := cb.failures + 1, lastFailureTime := t }) := by
  unfold CircuitBreaker.recordFailure
  by_cases h : cb.failures + 1 ≥ cb.failureThreshold
  · exact Or.inl ⟨h, by rw [if_pos h]⟩
  · exact Or.inr ⟨h, by rw [if_neg h]⟩

/-- C9: in every state reachable from the initial Closed state, with a
positive timeout, being Open implies the failure count is at (or above)
the threshold — so the count reached the threshold when Open was entered
— and, at the instant the state was reached, the timeout has not yet
elapsed since the last recorded failure. -/
theorem c9_open_invariant {cb : CircuitBreaker} {t : Int}
    (h : CBReachable cb t) :
    0 < cb.timeout → cb.state = .Open →
      cb.failureThreshold ≤ cb.failures ∧ t - cb.lastFailureTime < cb.timeout := by
  induction h with
  | init T d t₀ =>
    intro _ hopen
    exact absurd hopen (by simp [NewCircuitBreaker])
  | @reset cb t t' h ih =>
    intro _ hopen
    exact absurd hopen (by simp [CircuitBreaker.Reset])
  | @exec cb t t' fails h ih =>
    intro hd hopen
    by_cases hgate : cb.state = .Open ∧ t' - cb.lastFailureTime < cb.timeout
    · have hcb' : (cb.Execute t' (fun u : Unit => (u, fails)) ()).2.1 = cb := by
        simp [CircuitBreaker.Execute, hgate]
      rw [hcb'] at hd hopen ⊢
      exact ⟨(ih hd hgate.1).1, hgate.2⟩
    · have hpre : (if cb.state = .Open then
          { cb with state := .HalfOpen } else cb).state ≠ CBState.Open := by
        by_cases hst : cb.state = .Open
        · simp [hst]
        · simp [hst]
      cases fails with
      | false =>
        have hcb' : (cb.Execute t' (fun u : Unit => (u, false)) ()).2.1 =
            (if cb.state = .Open then
              { cb with state := .HalfOpen } else cb).recordSuccess := by
          simp [CircuitBreaker.Execute, hgate]
        rw [hcb'] at hopen
        exact absurd hopen (recordSuccess_state_ne_open _ hpre)
      | true =>
        have hcb' : (cb.Execute t' (fun u : Unit => (u, true)) ()).2.1 =
            (if cb.state = .Open then
              { cb with state := .HalfOpen } else cb).recordFailure t' := by
          simp [CircuitBreaker.Execute, hgate]
        rw [hcb'] at hd hopen ⊢
        rcases recordFailure_cases
            (if cb.state = .Open then { cb with state := .HalfOpen } else cb) t'
          with ⟨hthr, heq⟩ | ⟨_, heq⟩
        · rw [heq] at hd hopen ⊢
          simp only at hd hthr ⊢
          exact ⟨hthr, by omega⟩
        · rw [heq] at hopen
          simp only at hopen
          exact absurd hopen hpre

/-- Witness for C9: one failing call at instant 0 on a fresh breaker with
threshold 1, timeout 100 produces an Open state; the invariant gives
1 ≤ failures and 0 - lastFailureTime < timeout there. -/
theorem c9_open_invariant_witness :
    ((NewCircuitBreaker 1 100).Execute 0
        (fun u : Unit => (u, true)) ()).2.1.failureThreshold ≤
      ((NewCircuitBreaker 1 100).Execute 0
        (fun u : Unit => (u, true)) ()).2.1.failures ∧
    0 - ((NewCircuitBreaker 1 100).Execute 0
        (fun u : Unit => (u, true)) ()).2.1.lastFailureTime <
      ((NewCircuitBreaker 1 100).Execute 0
        (fun u : Unit => (u, true)) ()).2.1.timeout :=
  c9_open_invariant
    (CBReachable.exec 0 true (CBReachable.init 1 100 0))
    (by decide) (by decide)

/-! ## Retry executor (`pkg/retry/retry.go`)

`RetryConfig` holds `MaxAttempts int`, `InitialDelay`, `MaxDelay`
(durations) and `Multiplier float64`.  Delays and the multiplier are
modelled in exact rational arithmetic (`ℚ`), abstracting from float64
rounding and the nanosecond truncation of `time.Duration(float64(d) * m)`.
The retried operation is a state transformer `op : σ → σ × Bool`
(`Bool` is `err != nil`), modelling a Go closure over mutable state;
an execution records the result, the closure's final state, the number
of times the operation was invoked, and the list of delays slept. -/

structure RetryConfig where
  MaxAttempts : Int
  InitialDelay : ℚ
  MaxDelay : ℚ
  Multiplier : ℚ
deriving DecidableEq, Repr

/-- `DefaultRetryConfig()`: 3 attempts, 100ms initial, 30s max, ×2
(durations in nanoseconds). -/
def DefaultRetryConfig : RetryConfig :=
  { MaxAttempts := 3, InitialDelay := 100000000,
    MaxDelay := 30000000000, Multiplier := 2 }

/-- The terminal error `fmt.Errorf("operation failed after %d attempts",
r.MaxAttempts)`: it carries only the attempt count, not the underlying
operation error. -/
inductive RetryError
  | failedAfter (n : Int)
deriving DecidableEq, Repr

/-- The backoff update after sleeping:
`delay = time.Duration(float64(delay) * r.Multiplier);
if delay > r.MaxDelay { delay = r.MaxDelay }`. -/
def nextDelay (delay mult maxD : ℚ) : ℚ :=
  let d := delay * mult
  if d > maxD then maxD else d

structure RetryOutcome (σ : Type) where
  result : Except RetryError Unit
  final : σ
  invocations : Nat
  slept : List ℚ
deriving Repr

/-- The loop of `ExecuteWithRetry`:
```
for attempt := 1; attempt <= r.MaxAttempts; attempt++ {
    if err := operation(); err == nil { return nil }
    if attempt == r.MaxAttempts {
        return fmt.Errorf("operation failed after %d attempts", r.MaxAttempts)
    }
    time.Sleep(delay)
    delay = ...; if delay > r.MaxDelay { delay = r.MaxDelay }
}
return nil
```
`fuel` is the number of iterations the `attempt <= r.MaxAttempts` bound
still allows (`r.MaxAttempts - attempt + 1` at every reachable call);
fuel 0 is the loop bound failing, i.e. the trailing `return nil`. -/
def retryLoop {σ : Type} (maxA : Int) (mult maxD : ℚ) (op : σ → σ × Bool) :
    Nat → Int → ℚ → σ → RetryOutcome σ
  | 0, _, _, s => ⟨.ok (), s, 0, []⟩
  | fuel + 1, attempt, delay, s =>
    let r := op s
    if r.2 = false then ⟨.ok (), r.1, 1, []⟩
    else if attempt = maxA then ⟨.error (.failedAfter maxA), r.1, 1, []⟩
    else
      let rest := retryLoop maxA mult maxD op fuel (attempt + 1)
        (nextDelay delay mult maxD) r.1
      ⟨rest.result, rest.final, rest.invocations + 1, delay :: rest.slept⟩

/-- `ExecuteWithRetry` (retry.go lines 27-47). -/
def RetryConfig.ExecuteWithRetry {σ : Type} (r : RetryConfig)
    (op : σ → σ × Bool) (s : σ) : RetryOutcome σ :=
  retryLoop r.MaxAttempts r.Multiplier r.MaxDelay op
    r.MaxAttempts.toNat 1 r.InitialDelay s

structure RetryCBOutcome (σ : Type) where
  result : Except RetryError Unit
  final : σ
  invocations : Nat
  slept : List ℚ
  callbacks : List Int
deriving Repr

/-- The loop of `ExecuteWithRetryAndCallback`: identical to `retryLoop`
except that after every failing attempt (the final one included)
`onFailure(attempt, fmt.Errorf("attempt %d failed", attempt))` is
invoked before the exhaustion check and the sleep; `callbacks` records
the attempt numbers passed to `onFailure`, in order. -/
def retryLoopCB {σ : Type} (maxA : Int) (mult maxD : ℚ) (op : σ → σ × Bool) :
    Nat → Int → ℚ → σ → RetryCBOutcome σ
  | 0, _, _, s => ⟨.ok (), s, 0, [], []⟩
  | fuel + 1, attempt, delay, s =>
    let r := op s
    if r.2 = false then ⟨.ok (), r.1, 1, [], []⟩
    else if attempt = maxA then
      ⟨.error (.failedAfter maxA), r.1, 1, [], [attempt]⟩
    else
      let rest := retryLoopCB maxA mult maxD op fuel (attempt + 1)
        (nextDelay delay mult maxD) r.1
      ⟨rest.result, rest.final, rest.invocations + 1, delay :: rest.slept,
        attempt :: rest.callbacks⟩

/-- `ExecuteWithRetryAndCallback` (retry.go lines 50-74). -/
def RetryConfig.ExecuteWithRetryAndCallback {σ : Type} (r : RetryConfig)
    (op : σ → σ × Bool) (s : σ) : RetryCBOutcome σ :=
  retryLoopCB r.MaxAttempts r.Multiplier r.MaxDelay op
    r.MaxAttempts.toNat 1 r.InitialDelay s

/-! ### Retry lemmas -/

theorem retryLoop_all_fail {σ : Type} (maxA : Int) (mult maxD : ℚ)
    (op : σ → σ × Bool) (hop : ∀ x, (op x).2 = true) :
    ∀ (fuel : Nat) (attempt : Int) (delay : ℚ) (s : σ), 1 ≤ fuel →
      attempt + (fuel : Int) = maxA + 1 →
      (retryLoop maxA mult maxD op fuel attempt delay s).result =
        .error (.failedAfter maxA) ∧
      (retryLoop maxA mult maxD op fuel attempt delay s).invocations = fuel ∧
      (retryLoop maxA mult maxD op fuel attempt delay s).slept.length = fuel - 1 := by
  intro fuel
  induction fuel with
  | zero => intro _ _ _ h; omega
  | succ f ih =>
    intro attempt delay s _ hsum
    by_cases hlast : attempt = maxA
    · have hf : f = 0 := by omega
      subst hf
      simp [retryLoop, hop s, hlast]
    · have hf : 1 ≤ f := by omega
      have hrec := ih (attempt + 1) (nextDelay delay mult maxD) (op s).1 hf
        (by push_cast at hsum ⊢; omega)
      simp only [retryLoop, hop s, if_neg hlast]
      simp only [Bool.true_eq_false, if_false]
      refine ⟨hrec.1, by rw [hrec.2.1], ?_⟩
      simp only [List.length_cons]
      rw [hrec.2.2]
      omega

theorem retryLoop_first_success (maxA : Int) (mult maxD : ℚ)
    (failsAt : Int → Bool) (k : Int) (hk1 : 1 ≤ k) (hkA : k ≤ maxA)
    (hfail : ∀ j : Int, 1 ≤ j → j < k → failsAt j = true)
    (hsucc : failsAt k = false) :
    ∀ (fuel : Nat) (attempt : Int) (delay : ℚ) (s : Int), 1 ≤ attempt →
      attempt + (fuel : Int) = maxA + 1 → attempt ≤ k → s = attempt - 1 →
      (retryLoop maxA mult maxD
        (fun n : Int => (n + 1, failsAt (n + 1))) fuel attempt delay s).result =
          .ok () ∧
      ((retryLoop maxA mult maxD
        (fun n : Int => (n + 1, failsAt (n + 1))) fuel attempt delay s).invocations
          : Int) = k - attempt + 1 := by
  intro fuel
  induction fuel with
  | zero => intro _ _ _ _ _ _ _; omega
  | succ f ih =>
    intro attempt delay s h1 hsum hak hs
    subst hs
    have hstep : attempt - 1 + 1 = attempt := by omega
    by_cases heq : attempt = k
    · subst heq
      simp [retryLoop, hstep, hsucc]
    · have hlt : attempt < k := lt_of_le_of_ne hak heq
      have hfa : failsAt attempt = true := hfail attempt h1 hlt
      have hne : attempt ≠ maxA := by omega
      have hrec := ih (attempt + 1) (nextDelay delay mult maxD) attempt
        (by omega) (by push_cast at hsum ⊢; omega) (by omega) (by omega)
      simp only [retryLoop, hstep, hfa, if_neg hne]
      simp only [Bool.true_eq_false, if_false]
      refine ⟨hrec.1, ?_⟩
      push_cast
      rw [hrec.2]
      omega

/-- C3: with maxAttempts ≥ 1, (a) an operation failing on every
invocation is invoked exactly maxAttempts times and the result is the
terminal "operation failed after N attempts" error with N = maxAttempts
(the error type carries only the count, not the underlying error);
(b) an operation first succeeding on attempt k ≤ maxAttempts (the
operation's state counts its invocations) is invoked exactly k times and
the result is success. -/
theorem c3_retry_attempt_counts (r : RetryConfig) (h1 : 1 ≤ r.MaxAttempts) :
    (∀ {σ : Type} (op : σ → σ × Bool) (s : σ), (∀ x, (op x).2 = true) →
      (r.ExecuteWithRetry op s).result = .error (.failedAfter r.MaxAttempts) ∧
      ((r.ExecuteWithRetry op s).invocations : Int) = r.MaxAttempts) ∧
    (∀ (failsAt : Int → Bool) (k : Int), 1 ≤ k → k ≤ r.MaxAttempts →
      (∀ j : Int, 1 ≤ j → j < k → failsAt j = true) → failsAt k = false →
      (r.ExecuteWithRetry (fun n : Int => (n + 1, failsAt (n + 1))) 0).result =
        .ok () ∧
      ((r.ExecuteWithRetry
          (fun n : Int => (n + 1, failsAt (n + 1))) 0).invocations : Int) = k) := by
  constructor
  · intro σ op s hop
    have h := retryLoop_all_fail r.MaxAttempts r.Multiplier r.MaxDelay op hop
      r.MaxAttempts.toNat 1 r.InitialDelay s (by omega) (by omega)
    exact ⟨h.1, by rw [RetryConfig.ExecuteWithRetry, h.2.1]; omega⟩
  · intro failsAt k hk1 hkA hfail hsucc
    have h := retryLoop_first_success r.MaxAttempts r.Multiplier r.MaxDelay
      failsAt k hk1 hkA hfail hsucc
      r.MaxAttempts.toNat 1 r.InitialDelay 0 (by omega) (by omega) hk1 (by omega)
    exact ⟨h.1, by rw [RetryConfig.ExecuteWithRetry, h.2]; omega⟩

/-- Witness for C3 with maxAttempts = 3: an always-failing operation is
invoked 3 times and yields the failed-after-3 error; an operation first
succeeding on attempt 2 is invoked twice. -/
theorem c3_retry_attempt_counts_witness :
    ((RetryConfig.mk 3 1 10 2).ExecuteWithRetry
        (fun u : Unit => (u, true)) ()).result = .error (.failedAfter 3) ∧
    (((RetryConfig.mk 3 1 10 2).ExecuteWithRetry
        (fun u : Unit => (u, true)) ()).invocations : Int) = 3 ∧
    ((RetryConfig.mk 3 1 10 2).ExecuteWithRetry
        (fun n : Int => (n + 1, decide (n + 1 < 2))) 0).result = .ok () ∧
    (((RetryConfig.mk 3 1 10 2).ExecuteWithRetry
        (fun n : Int => (n + 1, decide (n + 1 < 2))) 0).invocations : Int) = 2 := by
  have h := c3_retry_attempt_counts (RetryConfig.mk 3 1 10 2) (by norm_num)
  have ha := h.1 (fun u : Unit => (u, true)) () (fun _ => rfl)
  have hb := h.2 (fun j : Int => decide (j < 2)) 2 (by norm_num) (by norm_num)
    (fun j hj1 hj2 => by simp; omega) (by simp)
  exact ⟨ha.1, ha.2, hb.1, hb.2⟩

/-- C10: with MaxAttempts ≤ 0 the `for attempt := 1; attempt <=
r.MaxAttempts` loop body never runs, so both retry entry points return
nil without invoking the operation and without sleeping (and without
invoking the callback). -/
theorem c10_nonpositive_max_attempts (r : RetryConfig)
    (h : r.MaxAttempts ≤ 0) :
    ∀ {σ : Type} (op : σ → σ × Bool) (s : σ),
      r.ExecuteWithRetry op s = ⟨.ok (), s, 0, []⟩ ∧
      r.ExecuteWithRetryAndCallback op s = ⟨.ok (), s, 0, [], []⟩ := by
  intro σ op s
  have h0 : r.MaxAttempts.toNat = 0 := Int.toNat_of_nonpos h
  rw [RetryConfig.ExecuteWithRetry, RetryConfig.ExecuteWithRetryAndCallback, h0]
  exact ⟨rfl, rfl⟩

/-- Witness for C10 at MaxAttempts = -3. -/
theorem c10_nonpositive_max_attempts_witness :
    (RetryConfig.mk (-3) 1 10 2).ExecuteWithRetry
        (fun n : Nat => (n + 1, true)) 0 = ⟨.ok (), 0, 0, []⟩ ∧
    (RetryConfig.mk (-3) 1 10 2).ExecuteWithRetryAndCallback
        (fun n : Nat => (n + 1, true)) 0 = ⟨.ok (), 0, 0, [], []⟩ :=
  c10_nonpositive_max_attempts (RetryConfig.mk (-3) 1 10 2) (by norm_num)
    (fun n : Nat => (n + 1, true)) 0

theorem nextDelay_le (delay mult maxD : ℚ) (h : delay ≤ maxD) :
    nextDelay delay mult maxD ≤ maxD := by
  unfold nextDelay
  by_cases hc : delay * mult > maxD
  · rw [if_pos hc]
  · rw [if_neg hc]
    exact le_of_not_lt hc

theorem nextDelay_pow (mult delay maxD : ℚ) (hm : 1 ≤ mult)
    (hd : delay ≤ maxD) (i : Nat) :
    min (nextDelay delay mult maxD * mult ^ i) maxD =
      min (delay * mult ^ (i + 1)) maxD := by
  have hpow : (1 : ℚ) ≤ mult ^ i := one_le_pow₀ hm
  unfold nextDelay
  by_cases hc : delay * mult > maxD
  · rw [if_pos hc]
    have hdpos : 0 < delay := by
      by_contra hneg
      push_neg at hneg
      nlinarith [mul_nonneg (neg_nonneg.mpr hneg) (sub_nonneg.mpr hm)]
    have hmaxpos : 0 < maxD := lt_of_lt_of_le hdpos hd
    have hdm : 0 < delay * mult := lt_trans hmaxpos hc
    have h1 : maxD ≤ maxD * mult ^ i :=
      le_mul_of_one_le_right (le_of_lt hmaxpos) hpow
    have h2 : maxD ≤ delay * mult ^ (i + 1) := by
      have h3 : delay * mult ≤ delay * mult * mult ^ i :=
        le_mul_of_one_le_right (le_of_lt hdm) hpow
      have h4 : delay * mult ^ (i + 1) = delay * mult * mult ^ i := by ring
      rw [h4]
      exact le_trans (le_of_lt hc) h3
    rw [min_eq_right h1, min_eq_right h2]
  · rw [if_neg hc]
    congr 1
    ring

theorem retryLoop_slept_formula {σ : Type} (maxA : Int) (mult maxD : ℚ)
    (op : σ → σ × Bool) (hm : 1 ≤ mult) :
    ∀ (fuel : Nat) (attempt : Int) (delay : ℚ) (s : σ), delay ≤ maxD →
      ∀ i, i < (retryLoop maxA mult maxD op fuel attempt delay s).slept.length →
        (retryLoop maxA mult maxD op fuel attempt delay s).slept.getD i 0 =
          min (delay * mult ^ i) maxD := by
  intro fuel
  induction fuel with
  | zero =>
    intro attempt delay s _ i hi
    simp [retryLoop] at hi
  | succ f ih =>
    intro attempt delay s hd i hi
    by_cases hok : (op s).2 = false
    · simp [retryLoop, hok] at hi
    · have hfail : (op s).2 = true := by
        revert hok
        cases (op s).2 <;> simp
      by_cases hlast : attempt = maxA
      · simp [retryLoop, hfail, hlast] at hi
      · simp only [retryLoop, hfail, Bool.true_eq_false, if_false,
          if_neg hlast] at hi ⊢
        cases i with
        | zero =>
          simp only [List.getD_cons_zero, pow_zero, mul_one]
          rw [min_eq_left hd]
        | succ j =>
          simp only [List.getD_cons_succ]
          simp only [List.length_cons, Nat.succ_lt_succ_iff] at hi
          rw [ih (attempt + 1) (nextDelay delay mult maxD) (op s).1
            (nextDelay_le delay mult maxD hd) j hi]
          exact nextDelay_pow mult delay maxD hm hd j

theorem retryLoopCB_slept_formula {σ : Type} (maxA : Int) (mult maxD : ℚ)
    (op : σ → σ × Bool) (hm : 1 ≤ mult) :
    ∀ (fuel : Nat) (attempt : Int) (delay : ℚ) (s : σ), delay ≤ maxD →
      ∀ i, i < (retryLoopCB maxA mult maxD op fuel attempt delay s).slept.length →
        (retryLoopCB maxA mult maxD op fuel attempt delay s).slept.getD i 0 =
          min (delay * mult ^ i) maxD := by
  intro fuel
  induction fuel with
  | zero =>
    intro attempt delay s _ i hi
    simp [retryLoopCB] at hi
  | succ f ih =>
    intro attempt delay s hd i hi
    by_cases hok : (op s).2 = false
    · simp [retryLoopCB, hok] at hi
    · have hfail : (op s).2 = true := by
        revert hok
        cases (op s).2 <;> simp
      by_cases hlast : attempt = maxA
      · simp [retryLoopCB, hfail, hlast] at hi
      · simp only [retryLoopCB, hfail, Bool.true_eq_false, if_false,
          if_neg hlast] at hi ⊢
        cases i with
        | zero =>
          simp only [List.getD_cons_zero, pow_zero, mul_one]
          rw [min_eq_left hd]
        | succ j =>
          simp only [List.getD_cons_succ]
          simp only [List.length_cons, Nat.succ_lt_succ_iff] at hi
          rw [ih (attempt + 1) (nextDelay delay mult maxD) (op s).1
            (nextDelay_le delay mult maxD hd) j hi]
          exact nextDelay_pow mult delay maxD hm hd j

/-- C4 counterexample: with maxAttempts = 2, initialDelay = 50,
maxDelay = 10, multiplier = 2 (so multiplier ≥ 1 and maxAttempts ≥ 1 as
the claim requires) and an always-failing operation, the delay slept
before attempt 2 is the uncapped initialDelay 50, while the claimed
formula min(initialDelay * multiplier^0, maxDelay) gives 10; the slept
delay also exceeds maxDelay, refuting "never exceeds maxDelay". -/
theorem c4_backoff_delays_counterexample :
    ((RetryConfig.mk 2 50 10 2).ExecuteWithRetry
        (fun u : Unit => (u, true)) ()).slept = [50] ∧
    ((RetryConfig.mk 2 50 10 2).ExecuteWithRetry
        (fun u : Unit => (u, true)) ()).slept.getD 0 0 ≠
      min ((RetryConfig.mk 2 50 10 2).InitialDelay *
        (RetryConfig.mk 2 50 10 2).Multiplier ^ 0)
        (RetryConfig.mk 2 50 10 2).MaxDelay ∧
    ¬ ((RetryConfig.mk 2 50 10 2).ExecuteWithRetry
        (fun u : Unit => (u, true)) ()).slept.getD 0 0 ≤
      (RetryConfig.mk 2 50 10 2).MaxDelay := by
  refine ⟨?_, ?_, ?_⟩ <;>
    norm_num [RetryConfig.ExecuteWithRetry, retryLoop, nextDelay]

/-- C4 (amended): with maxAttempts ≥ 1, multiplier ≥ 1 and additionally
initialDelay ≤ maxDelay, in both ExecuteWithRetry and
ExecuteWithRetryAndCallback the delay slept before attempt i+1 equals
min(initialDelay * multiplier^i, maxDelay) (in exact arithmetic); the
sequence starts at initialDelay and never exceeds maxDelay.  Without
initialDelay ≤ maxDelay the first slept delay is initialDelay itself,
uncapped (see the counterexample). -/
theorem c4_backoff_delays (r : RetryConfig) (h1 : 1 ≤ r.MaxAttempts)
    (hm : 1 ≤ r.Multiplier) (hinit : r.InitialDelay ≤ r.MaxDelay) :
    ∀ {σ : Type} (op : σ → σ × Bool) (s : σ),
      (∀ i, i < (r.ExecuteWithRetry op s).slept.length →
        (r.ExecuteWithRetry op s).slept.getD i 0 =
          min (r.InitialDelay * r.Multiplier ^ i) r.MaxDelay) ∧
      (∀ i, i < (r.ExecuteWithRetryAndCallback op s).slept.length →
        (r.ExecuteWithRetryAndCallback op s).slept.getD i 0 =
          min (r.InitialDelay * r.Multiplier ^ i) r.MaxDelay) ∧
      (0 < (r.ExecuteWithRetry op s).slept.length →
        (r.ExecuteWithRetry op s).slept.getD 0 0 = r.InitialDelay) ∧
      (∀ i, i < (r.ExecuteWithRetry op s).slept.length →
        (r.ExecuteWithRetry op s).slept.getD i 0 ≤ r.MaxDelay) := by
  intro σ op s
  have hA := retryLoop_slept_formula r.MaxAttempts r.Multiplier r.MaxDelay op hm
    r.MaxAttempts.toNat 1 r.InitialDelay s hinit
  have hB := retryLoopCB_slept_formula r.MaxAttempts r.Multiplier r.MaxDelay op hm
    r.MaxAttempts.toNat 1 r.InitialDelay s hinit
  refine ⟨hA, hB, ?_, ?_⟩
  · intro hpos
    unfold RetryConfig.ExecuteWithRetry at hpos ⊢
    rw [hA 0 hpos]
    simp [min_eq_left hinit]
  · intro i hi
    unfold RetryConfig.ExecuteWithRetry at hi ⊢
    rw [hA i hi]
    exact min_le_right _ _

/-- Witness for C4 (amended) with maxAttempts = 3, initialDelay = 4,
maxDelay = 10, multiplier = 2 and an always-failing operation: the two
slept delays are 4 and min(4·2, 10) = 8. -/
theorem c4_backoff_delays_witness :
    ((RetryConfig.mk 3 4 10 2).ExecuteWithRetry
        (fun u : Unit => (u, true)) ()).slept.getD 0 0 =
      min ((4 : ℚ) * 2 ^ 0) 10 ∧
    ((RetryConfig.mk 3 4 10 2).ExecuteWithRetry
        (fun u : Unit => (u, true)) ()).slept.getD 1 0 =
      min ((4 : ℚ) * 2 ^ 1) 10 := by
  have h := c4_backoff_delays (RetryConfig.mk 3 4 10 2) (by norm_num)
    (by norm_num) (by norm_num) (fun u : Unit => (u, true)) ()
  have hlen : ((RetryConfig.mk 3 4 10 2).ExecuteWithRetry
      (fun u : Unit => (u, true)) ()).slept.length = 2 :=
    (retryLoop_all_fail 3 2 10 (fun u : Unit => (u, true)) (fun _ => rfl)
      3 1 4 () (by omega) (by omega)).2.2
  exact ⟨h.1 0 (by omega), h.1 1 (by omega)⟩

/-! ## Batch processor (`pkg/queue`, BatchProcessor)

`BatchProcessor` holds `batchSize int`, a buffer `events
[]models.ProductEvent`, and a buffered dispatch channel `flushChan chan
[]models.ProductEvent` created with capacity 10 by `NewBatchProcessor`.
The channel is modelled as the list of batches it currently buffers plus
its capacity; the background goroutine draining it and the flush timer
are outside the state modelled here (both claims below are about the
buffer/channel effects of a single locked `AddEvent`/`flushBatch` call). -/

structure BatchProcessor where
  batchSize : Int
  events : List ProductEvent
  flushChan : List (List ProductEvent)
  flushChanCap : Nat
deriving DecidableEq, Repr

/-- `NewBatchProcessor(batchSize, ...)`: empty buffer,
`flushChan: make(chan []models.ProductEvent, 10)`. -/
def NewBatchProcessor (batchSize : Int) : BatchProcessor :=
  { batchSize := batchSize, events := [], flushChan := [], flushChanCap := 10 }

/-- Outcome of `AddEvent`/`flushBatch`: nil, or `ErrBatchProcessorFull`. -/
inductive FlushResult
  | ok
  | batchProcessorFull
deriving DecidableEq, Repr

/-- `flushBatch`:
```
if len(bp.events) == 0 { return nil }
eventsToProcess := make(...); copy(eventsToProcess, bp.events)
bp.events = bp.events[:0]
select {
case bp.flushChan <- eventsToProcess:
    return nil
default:
    return ErrBatchProcessorFull
}
```
The buffer is cleared before the channel send is attempted; a full
channel (its `default` branch) loses the copied events. -/
def BatchProcessor.flushBatch (bp : BatchProcessor) :
    FlushResult × BatchProcessor :=
  if bp.events.length = 0 then (.ok, bp)
  else
    let eventsToProcess := bp.events
    let bp' := { bp with events := [] }
    if bp'.flushChan.length < bp'.flushChanCap then
      (.ok, { bp' with flushChan := bp'.flushChan ++ [eventsToProcess] })
    else
      (.batchProcessorFull, bp')

/-- `AddEvent` (under the processor's lock):
`bp.events = append(bp.events, event);
if len(bp.events) >= bp.batchSize { return bp.flushBatch() };
return nil`. -/
def BatchProcessor.AddEvent (bp : BatchProcessor) (event : ProductEvent) :
    FlushResult × BatchProcessor :=
  let bp' := { bp with events := bp.events ++ [event] }
  if (bp'.events.length : Int) ≥ bp'.batchSize then bp'.flushBatch
  else (.ok, bp')

/-- C6: if the buffer holds batchSize - 1 events (batchSize ≥ 1) and the
dispatch channel is not full, `AddEvent` returns nil and performs exactly
one flush synchronously in that call: the buffer is left empty and
exactly one batch — the buffered events followed by the new event, in
insertion order — is appended to the dispatch channel. -/
theorem c6_addevent_triggers_flush (bp : BatchProcessor) (event : ProductEvent)
    (hsize : 1 ≤ bp.batchSize)
    (hbuf : (bp.events.length : Int) = bp.batchSize - 1)
    (hchan : bp.flushChan.length < bp.flushChanCap) :
    bp.AddEvent event =
      (.ok, { bp with events := [],
                      flushChan := bp.flushChan ++ [bp.events ++ [event]] }) := by
  unfold BatchProcessor.AddEvent
  have hge : ((bp.events ++ [event]).length : Int) ≥ bp.batchSize := by
    simp only [List.length_append, List.length_cons, List.length_nil]
    push_cast
    omega
  rw [if_pos hge]
  unfold BatchProcessor.flushBatch
  have hne : ¬ (bp.events ++ [event]).length = 0 := by
    simp only [List.length_append, List.length_cons, List.length_nil]
    omega
  rw [if_neg hne]
  rw [if_pos (by simpa using hchan)]

/-- Witness for C6: batchSize 2, one buffered event, empty channel. -/
theorem c6_addevent_triggers_flush_witness :
    (BatchProcessor.mk 2 [⟨"a", 1, 1⟩] [] 10).AddEvent ⟨"b", 2, 2⟩ =
      (.ok, BatchProcessor.mk 2 [] [[⟨"a", 1, 1⟩, ⟨"b", 2, 2⟩]] 10) :=
  c6_addevent_triggers_flush (BatchProcessor.mk 2 [⟨"a", 1, 1⟩] [] 10)
    ⟨"b", 2, 2⟩ (by norm_num) (by norm_num) (by norm_num)

/-- C7: a flush of a non-empty buffer that finds the dispatch channel
full returns `ErrBatchProcessorFull` with the buffer already cleared and
the channel unchanged: the copied events are re-added nowhere — they are
gone from the accumulator's state. -/
theorem c7_flush_full_loses_events (bp : BatchProcessor)
    (hne : bp.events ≠ [])
    (hfull : ¬ bp.flushChan.length < bp.flushChanCap) :
    bp.flushBatch = (.batchProcessorFull, { bp with events := [] }) := by
  unfold BatchProcessor.flushBatch
  rw [if_neg (by simpa [List.length_eq_zero] using hne)]
  rw [if_neg (by simpa using hfull)]

/-- Witness for C7: one buffered event, channel at its capacity 10. -/
theorem c7_flush_full_loses_events_witness :
    (BatchProcessor.mk 5 [⟨"a", 1, 1⟩]
        (List.replicate 10 [⟨"x", 0, 0⟩]) 10).flushBatch =
      (.batchProcessorFull,
       BatchProcessor.mk 5 [] (List.replicate 10 [⟨"x", 0, 0⟩]) 10) :=
  c7_flush_full_loses_events
    (BatchProcessor.mk 5 [⟨"a", 1, 1⟩] (List.replicate 10 [⟨"x", 0, 0⟩]) 10)
    (by simp) (by simp)

/-! ## Product repository and worker pool
(`internal/repositories/product_repository.go`, `internal/services`)

The repository is `map[string]*models.Product` behind a RW-lock;
`Update` overwrites the keyed record (last-write-wins), `Get` looks it
up.  The worker pool's `processEvent` wraps the store update in
`ExecuteWithRetryAndCallback` around `circuitBreaker.Execute`; the
wrapped operation always returns nil after calling `Update`.
`NewProductService` wires a breaker with threshold 5 and timeout 60s and
`DefaultRetryConfig`. -/

def InMemoryProductRepository := String → Option Product

def NewInMemoryProductRepository : InMemoryProductRepository := fun _ => none

def InMemoryProductRepository.Get (r : InMemoryProductRepository)
    (id : String) : Option Product := r id

/-- `Update(id, price, stock)`: `r.data[id] = &models.Product{ID: id,
Price: price, Stock: stock}`. -/
def InMemoryProductRepository.Update (r : InMemoryProductRepository)
    (id : String) (price : ℚ) (stock : Int) : InMemoryProductRepository :=
  fun k => if k = id then some ⟨id, price, stock⟩ else r k

/-- `WorkerPool.processEvent` (internal/services): retry + circuit
breaker around the store update; the inner operation sleeps 10ms,
updates the repository, and returns nil.  Returns the breaker, the
repository, and the retry result. -/
def WorkerPool.processEvent (rc : RetryConfig) (cb : CircuitBreaker)
    (repo : InMemoryProductRepository) (now : Int) (event : ProductEvent) :
    CircuitBreaker × InMemoryProductRepository × Except RetryError Unit :=
  let op : CircuitBreaker × InMemoryProductRepository →
      (CircuitBreaker × InMemoryProductRepository) × Bool := fun p =>
    let r := p.1.Execute now
      (fun rp : InMemoryProductRepository =>
        (rp.Update event.productID event.price event.stock, false)) p.2
    ((r.2.1, r.2.2.1), r.1.isErr)
  let out := rc.ExecuteWithRetryAndCallback op (cb, repo)
  (out.final.1, out.final.2, out.result)

inductive WorkerOutcome
  | processed (cb : CircuitBreaker) (repo : InMemoryProductRepository)
      (q : InMemoryEventQueue)
  | exited
  | blocked

/-- One iteration of `WorkerPool.worker`: check the cancellation signal,
else dequeue; on queue-closed-and-drained exit; otherwise process the
event. -/
def WorkerPool.workerStep (rc : RetryConfig) (cb : CircuitBreaker)
    (repo : InMemoryProductRepository) (q : InMemoryEventQueue)
    (now : Int) (cancelled : Bool) : WorkerOutcome :=
  if cancelled then .exited
  else
    match q.Dequeue with
    | (.got e, q') =>
      let r := WorkerPool.processEvent rc cb repo now e
      .processed r.1 r.2.1 q'
    | (.closedEmpty, _) => .exited
    | (.blocks, _) => .blocked

/-- The end-to-end scenario of C8: a capacity-10 queue, the service's
breaker (threshold 5, timeout 60s in nanoseconds) and default retry
config, one worker, the single event {p1, 10.0, 5} enqueued and then
processed by the worker to completion; the value is the store lookup of
"p1" afterwards. -/
def c8Scenario : Option Product :=
  let e : ProductEvent := ⟨"p1", 10, 5⟩
  let q1 := ((NewInMemoryEventQueue 10).Enqueue e).2
  match WorkerPool.workerStep DefaultRetryConfig
      (NewCircuitBreaker 5 60000000000) NewInMemoryProductRepository
      q1 0 false with
  | .processed _ repo _ => repo.Get "p1"
  | _ => none

/-- C8: after the single event {p1, 10.0, 5} is enqueued on the
capacity-10 queue and the worker processes it to completion, the store
lookup of "p1" yields the product with price 10.0 and stock 5. -/
theorem c8_end_to_end : c8Scenario = some ⟨"p1", 10, 5⟩ := rfl

end ProductService
